import Mathlib

/-!
Verification of the recurring-expense scheduling engine of the expense
tracker. The embedding below translates, from the application source:

- the date helpers toYYYYMMDD and parseDate and the recurrence evaluator
  calculateNextDueDate (App source, lines 86-115);
- the generation engine (the generation effect of App, lines 235-313),
  made explicit as a pure function generate over the lists of templates
  and expenses plus the current day, returning the delta of new instances
  and updated templates exactly as the effect computes it;
- the active-template filter of the recurring-expenses screen
  (activeRecurringExpenses, including its local parseLocalYYYYMMDD);
- the form-submit handler with its convert-to-single branch.

Modelling conventions:
- A JavaScript Date (always at local midnight here) is a day number
  (Nat): days since 0000-01-01 of the proleptic Gregorian calendar.
  The model fixes the timezone to UTC, so that toISOString of a local
  midnight prints that same calendar day; this also restricts attention
  to years 100-9999 where the Date constructor applies no 1900-offset
  and ISO strings are fixed-width.
- A date string YYYY-MM-DD is the structure Ymd of its three numeric
  fields (month 1-based, as printed). For fixed-width strings, string
  equality is Ymd equality and the lexicographic string order is the
  lexicographic order ymdLt on the triple.
- JavaScript falsy checks on optional data: an absent or empty string
  field is none; the number 0 is falsy, which the definitions reproduce
  where the source relies on it (recurrenceInterval, recurrenceCount).
- crypto.randomUUID is modelled by a fresh-id counter threaded through
  the engine; numbers that are conceptually counts (recurrenceInterval,
  recurrenceCount) are Nat.
- The while loop of the engine is written with explicit fuel; the engine
  runs it with fuel today + 1 - firstDue, which the termination theorem
  proves sufficient (each step strictly advances the date).
-/

set_option maxRecDepth 100000

namespace Gestore

/-- Frequency tag of a record: a record tagged recurring is a template,
one tagged single is a standalone expense. -/
inductive Freq where
  | single
  | recurring
deriving DecidableEq, Repr, Inhabited

/-- Recurrence unit of a template. -/
inductive Recur where
  | daily
  | weekly
  | monthly
  | yearly
deriving DecidableEq, Repr, Inhabited

/-- Termination-rule tag of a template. -/
inductive REndType where
  | forever
  | count
  | date
deriving DecidableEq, Repr, Inhabited

/-- A date string of shape YYYY-MM-DD, kept as its three numeric fields;
the month is 1-based exactly as printed in the string. -/
structure Ymd where
  y : Nat
  m : Nat
  d : Nat
deriving DecidableEq, Repr, Inhabited

/-- Lexicographic comparison of two date strings, as the JavaScript
string comparison on fixed-width ISO dates performs it. -/
def ymdLt (a b : Ymd) : Bool :=
  decide (a.y < b.y) ||
    (a.y == b.y && (decide (a.m < b.m) || (a.m == b.m && decide (a.d < b.d))))

/-- Gregorian leap-year rule. -/
def isLeap (y : Nat) : Bool :=
  y % 4 == 0 && (y % 100 != 0 || y % 400 == 0)

/-- Number of days of year y. -/
def daysInYear (y : Nat) : Nat := if isLeap y then 366 else 365

/-- Number of days strictly before year y, counted from year 0: 365 per
year plus one per leap year among 0 .. y-1, in closed form so that the
kernel evaluates it by plain arithmetic. -/
def daysBeforeYear (y : Nat) : Nat :=
  365 * y + (y + 3) / 4 - (y + 99) / 100 + (y + 399) / 400

/-- Length of month m (0-based, JavaScript style) in a year of the given
leap kind; 0 for an out-of-range index. -/
def monthLen (leap : Bool) : Nat → Nat
  | 0 => 31
  | 1 => if leap then 29 else 28
  | 2 => 31
  | 3 => 30
  | 4 => 31
  | 5 => 30
  | 6 => 31
  | 7 => 31
  | 8 => 30
  | 9 => 31
  | 10 => 30
  | 11 => 31
  | _ => 0

/-- Length of month m (0-based) of year y. -/
def daysInMonth (y m : Nat) : Nat := monthLen (isLeap y) m

/-- Number of days of year y strictly before month m (0-based). -/
def daysBeforeMonth (y : Nat) : Nat → Nat
  | 0 => 0
  | m + 1 => daysBeforeMonth y m + daysInMonth y m

/-- Day number of year y, month m (0-based), day-of-month d (1-based).
Out-of-range day-of-month overflows linearly into later months, exactly
as the JavaScript Date constructor normalises it. -/
def toDay (y m d : Nat) : Nat :=
  daysBeforeYear y + daysBeforeMonth y m + (d - 1)

/-- Fuelled search for the year containing a day number: repeatedly peel
whole years off the remainder. -/
def yearSearch : Nat → Nat → Nat → Nat × Nat
  | 0, y, r => (y, r)
  | fuel + 1, y, r =>
    if r < daysInYear y then (y, r) else yearSearch fuel (y + 1) (r - daysInYear y)

/-- Fuelled search for the month containing a day-of-year remainder. -/
def monthSearch (y : Nat) : Nat → Nat → Nat → Nat × Nat
  | 0, m, r => (m, r)
  | fuel + 1, m, r =>
    if r < daysInMonth y m then (m, r)
    else monthSearch y fuel (m + 1) (r - daysInMonth y m)

/-- Decompose a day number into (year, 0-based month, 1-based day). The
search starts at the underestimate n / 366, which is at most a few
years below the answer, so only a handful of iterations remain. -/
def fromDay (n : Nat) : Nat × Nat × Nat :=
  let y0 := n / 366
  let r0 := n - daysBeforeYear y0
  let p := yearSearch (r0 / 365 + 1) y0 r0
  let q := monthSearch p.1 12 0 p.2
  (p.1, q.1, q.2 + 1)

/-- The source helper toYYYYMMDD: format a date as its ISO date string
(here: the Ymd triple, with 1-based month). -/
def toYYYYMMDD (n : Nat) : Ymd :=
  let t := fromDay n
  ⟨t.1, t.2.1 + 1, t.2.2⟩

/-- The source helper parseDate: read a YYYY-MM-DD string as a local
date (here: a day number); the printed month is 1-based, the Date
constructor takes it 0-based. -/
def parseDate (s : Ymd) : Nat := toDay s.y (s.m - 1) s.d

/-- The expense record. amount stands for the opaque payload fields the
engine copies but never inspects. -/
structure Expense where
  id : Nat
  date : Option Ymd
  amount : Int
  frequency : Freq
  recurringExpenseId : Option Nat
  recurrence : Option Recur
  monthlyRecurrenceType : Option Nat
  recurrenceInterval : Option Nat
  recurrenceDays : Option (List Nat)
  recurrenceEndType : Option REndType
  recurrenceEndDate : Option Ymd
  recurrenceCount : Option Nat
  lastGeneratedDate : Option Ymd
deriving DecidableEq, Repr, Inhabited

/-- The interval actually used by the evaluator: recurrenceInterval with
JavaScript or-default 1, where the value 0 is falsy and also defaults. -/
def effInterval (t : Expense) : Nat :=
  match t.recurrenceInterval with
  | none => 1
  | some 0 => 1
  | some k => k

/-- Add k calendar months to a day number, JavaScript setMonth style:
normalise the month index, keep the day-of-month, let an overflowing
day-of-month roll linearly into the following month. -/
def addMonths (n k : Nat) : Nat :=
  let p := fromDay n
  let t := 12 * p.1 + p.2.1 + k
  toDay (t / 12) (t % 12) p.2.2

/-- Add k calendar years to a day number, JavaScript setFullYear style. -/
def addYears (n k : Nat) : Nat :=
  let p := fromDay n
  toDay (p.1 + k) p.2.1 p.2.2

/-- The source calculateNextDueDate: next due date of a template after a
given date, or none for a non-template or unrecognised recurrence. -/
def calculateNextDueDate (t : Expense) (fromD : Nat) : Option Nat :=
  if t.frequency != .recurring then none
  else
    match t.recurrence with
    | none => none
    | some .daily => some (fromD + effInterval t)
    | some .weekly => some (fromD + 7 * effInterval t)
    | some .monthly => some (addMonths fromD (effInterval t))
    | some .yearly => some (addYears fromD (effInterval t))

/-- Count of the instances in a list that reference template id tid. -/
def countRefs (tid : Nat) (es : List Expense) : Nat :=
  (es.filter fun e => e.recurringExpenseId == some tid).length

/-- The duplicate check of the engine: does the list hold an instance of
template tid dated s. -/
def instanceExists (tid : Nat) (s : Ymd) (es : List Expense) : Bool :=
  es.any fun e => e.recurringExpenseId == some tid && e.date == some s

/-- The instance the engine pushes for a due date: a spread copy of the
template with fresh id, the due date, frequency single, back-reference
to the template, and only lastGeneratedDate cleared. -/
def materialize (t : Expense) (idv : Nat) (s : Ymd) : Expense :=
  { t with
    id := idv
    date := some s
    frequency := .single
    recurringExpenseId := some t.id
    lastGeneratedDate := none }

/-- Mutable state of one generation pass: the queued new instances in
push order, and the fresh-id counter. -/
structure GenState where
  newExpenses : List Expense
  nextId : Nat
deriving DecidableEq, Repr, Inhabited

/-- The date-termination break of the engine: end type date, a truthy
end date, and the candidate's ISO string strictly greater than it. -/
def dateBreak (t : Expense) (nd : Nat) : Bool :=
  t.recurrenceEndType == some .date &&
    (match t.recurrenceEndDate with
     | none => false
     | some e => ymdLt e (toYYYYMMDD nd))

/-- The count-termination break of the engine: end type count, a truthy
(nonzero) recurrenceCount, and at least that many instances so far. -/
def countBreak (t : Expense) (total : Nat) : Bool :=
  t.recurrenceEndType == some .count &&
    (match t.recurrenceCount with
     | none => false
     | some 0 => false
     | some c => decide (c ≤ total))

/-- The while loop of the generation effect, with explicit fuel. State:
the queue plus id counter, the candidate due date, and the pending
lastGeneratedDate of the updated template copy. -/
def genLoop (t : Expense) (today : Nat) (E : List Expense) :
    Nat → GenState → Option Nat → Option Ymd → GenState × Option Ymd
  | _, st, none, lg => (st, lg)
  | 0, st, some _, lg => (st, lg)
  | fuel + 1, st, some nd, lg =>
    if nd ≤ today then
      if dateBreak t nd then (st, lg)
      else if countBreak t (countRefs t.id E + countRefs t.id st.newExpenses) then (st, lg)
      else
        let s := toYYYYMMDD nd
        let st' :=
          if instanceExists t.id s E || instanceExists t.id s st.newExpenses then st
          else ⟨st.newExpenses ++ [materialize t st.nextId s], st.nextId + 1⟩
        genLoop t today E fuel st' (calculateNextDueDate t nd) (some s)
    else (st, lg)

/-- Fuel sufficient for the loop: one unit per day from the candidate up
to today (each iteration strictly advances the candidate). -/
def loopBound (today : Nat) : Option Nat → Nat
  | none => 0
  | some d => today + 1 - d

/-- First candidate of a template: its own start date if it has never
generated, otherwise the evaluator applied to the stored cursor. -/
def initialNextDue (t : Expense) (d0 : Ymd) : Option Nat :=
  match t.lastGeneratedDate with
  | none => some (parseDate d0)
  | some lg => calculateNextDueDate t (parseDate lg)

/-- Queue the updated template copy exactly when its pending cursor is
truthy and differs from the stored one. -/
def pushUpdate (t : Expense) (lg : Option Ymd) (up : List Expense) :
    List Expense :=
  match lg with
  | none => up
  | some s =>
    if t.lastGeneratedDate == some s then up
    else up ++ [{ t with lastGeneratedDate := some s }]

/-- Per-template step of the generation pass: skip a template with no
date, otherwise run the loop and queue the updated template copy when
its cursor is set and changed. -/
def processTemplate (today : Nat) (E : List Expense) (t : Expense)
    (st : GenState) (up : List Expense) : GenState × List Expense :=
  match t.date with
  | none => (st, up)
  | some d0 =>
    let nd0 := initialNextDue t d0
    let r := genLoop t today E (loopBound today nd0) st nd0 t.lastGeneratedDate
    (r.1, pushUpdate t r.2 up)

/-- Walk of the generation pass over the template list. -/
def runTemplates (today : Nat) (E : List Expense) :
    List Expense → GenState → List Expense → GenState × List Expense
  | [], st, up => (st, up)
  | t :: ts, st, up =>
    let r := processTemplate today E t st up
    runTemplates today E ts r.1 r.2

/-- Result of one generation pass: the instances to prepend, the
template copies whose cursor advanced, and the next fresh id. -/
structure GenResult where
  newInstances : List Expense
  updatedTemplates : List Expense
  nextId : Nat
deriving DecidableEq, Repr, Inhabited

/-- One generation pass, exactly as the generation effect computes its
delta from the current templates, expenses and today. -/
def generate (templates expenses : List Expense) (today : Nat) (id0 : Nat) :
    GenResult :=
  let r := runTemplates today expenses templates ⟨[], id0⟩ []
  ⟨r.1.newExpenses, r.2, r.1.nextId⟩

/-- How the caller applies the delta to the expense list: the new
instances are prepended. -/
def applyExpenses (r : GenResult) (expenses : List Expense) : List Expense :=
  r.newInstances ++ expenses

/-- How the caller applies the delta to the template list: each template
is replaced by the first queued update with its id, if any. -/
def applyTemplates (r : GenResult) (templates : List Expense) : List Expense :=
  templates.map fun t => ((r.updatedTemplates.find? fun u => u.id == t.id).getD t)

/-- The screen helper parseLocalYYYYMMDD: null for an absent string,
else the parsed local date. -/
def parseLocalYYYYMMDD : Option Ymd → Option Nat
  | none => none
  | some s => some (parseDate s)

/-- The active-template filter of the recurring-expenses screen, one
template at a time (the screen keeps templates passing this test). -/
def isActive (t : Expense) (expenses : List Expense) : Bool :=
  if t.frequency != .recurring then false
  else
    match t.recurrenceEndType with
    | none => true
    | some .forever => true
    | some .count =>
      match t.recurrenceCount with
      | none => true
      | some 0 => true
      | some c => decide (countRefs t.id expenses < c)
    | some .date =>
      match parseLocalYYYYMMDD t.recurrenceEndDate with
      | none => true
      | some endD =>
        match parseLocalYYYYMMDD (t.lastGeneratedDate.or t.date) with
        | none => true
        | some lastD =>
          if endD < lastD then false
          else
            match calculateNextDueDate t lastD with
            | none => false
            | some nd => decide (nd ≤ endD)

/-- Form data handed to the submit handler: an edited record carrying
its id, or a fresh record without one. -/
inductive FormData where
  | withId (e : Expense)
  | withoutId (e : Expense)
deriving DecidableEq, Repr, Inhabited

/-- The convert branch's cleared copy: frequency single and every
recurrence-related field, including the back-reference, cleared. -/
def clearConvert (e : Expense) : Expense :=
  { e with
    frequency := .single
    recurrence := none
    monthlyRecurrenceType := none
    recurrenceInterval := none
    recurrenceDays := none
    recurrenceEndType := none
    recurrenceEndDate := none
    recurrenceCount := none
    recurringExpenseId := none
    lastGeneratedDate := none }

/-- The non-convert branches of the submit handler: update or add a
template for recurring data, else update or add a single expense. -/
def handleRest (fd : FormData) (templates expenses : List Expense)
    (freshId : Nat) : List Expense × List Expense :=
  match fd with
  | .withId e =>
    if e.frequency == .recurring then
      (templates.map fun x => if x.id == e.id then e else x, expenses)
    else
      (templates, expenses.map fun x => if x.id == e.id then e else x)
  | .withoutId e =>
    if e.frequency == .recurring then
      ({ e with id := freshId } :: templates, expenses)
    else
      (templates, { e with id := freshId } :: expenses)

/-- The form-submit handler: when a recurring template being edited is
resubmitted with its id and a non-recurring frequency, delete the
template and prepend a cleared standalone expense with a fresh id;
otherwise fall through to the plain update and add branches. -/
def handleFormSubmit (fd : FormData) (editingRec : Option Expense)
    (templates expenses : List Expense) (freshId : Nat) :
    List Expense × List Expense :=
  match editingRec, fd with
  | some er, .withId e =>
    if e.id == er.id && !(e.frequency == .recurring) then
      (templates.filter fun x => !(x.id == er.id),
        { clearConvert e with id := freshId } :: expenses)
    else handleRest (.withId e) templates expenses freshId
  | _, _ => handleRest fd templates expenses freshId

/-! Calendar lemmas: correctness of the day-number decomposition and
strict advancement of the recurrence evaluator. -/

theorem effInterval_pos (t : Expense) : 1 ≤ effInterval t := by
  unfold effInterval
  match h : t.recurrenceInterval with
  | none => simp
  | some 0 => simp
  | some (k + 1) => simp

theorem daysInYear_ge (y : Nat) : 365 ≤ daysInYear y := by
  unfold daysInYear; split <;> omega

theorem daysInMonth_ge (y m : Nat) (h : m < 12) : 28 ≤ daysInMonth y m := by
  unfold daysInMonth monthLen
  interval_cases m <;> cases hl : isLeap y <;> simp

theorem isLeap_iff (y : Nat) :
    isLeap y = true ↔ (y % 4 = 0 ∧ (y % 100 ≠ 0 ∨ y % 400 = 0)) := by
  simp [isLeap]

set_option maxHeartbeats 1600000 in
theorem daysBeforeYear_succ (y : Nat) :
    daysBeforeYear (y + 1) = daysBeforeYear y + daysInYear y := by
  unfold daysBeforeYear daysInYear
  by_cases h : isLeap y
  · rw [if_pos h]
    have hl := (isLeap_iff y).mp h
    clear h
    omega
  · rw [if_neg h]
    have hl : y % 4 ≠ 0 ∨ (y % 100 = 0 ∧ y % 400 ≠ 0) := by
      by_cases h4 : y % 4 = 0
      · by_cases h100 : y % 100 = 0
        · by_cases h400 : y % 400 = 0
          · exact absurd ((isLeap_iff y).mpr ⟨h4, Or.inr h400⟩) h
          · exact Or.inr ⟨h100, h400⟩
        · exact absurd ((isLeap_iff y).mpr ⟨h4, Or.inl h100⟩) h
      · exact Or.inl h4
    clear h
    rcases hl with hl | ⟨hl1, hl2⟩
    · omega
    · omega

theorem daysBeforeYear_start (n : Nat) : daysBeforeYear (n / 366) ≤ n := by
  unfold daysBeforeYear
  omega

theorem daysBeforeMonth_twelve (y : Nat) : daysBeforeMonth y 12 = daysInYear y := by
  cases hl : isLeap y <;>
    simp [daysBeforeMonth, daysInMonth, monthLen, daysInYear, hl]

theorem daysBeforeMonth_succ (y m : Nat) :
    daysBeforeMonth y (m + 1) = daysBeforeMonth y m + daysInMonth y m := rfl

theorem yearSearch_spec :
    ∀ fuel y r, r ≤ 365 * fuel + 364 →
      daysBeforeYear (yearSearch fuel y r).1 + (yearSearch fuel y r).2 =
        daysBeforeYear y + r ∧
      (yearSearch fuel y r).2 < daysInYear (yearSearch fuel y r).1 := by
  intro fuel
  induction fuel with
  | zero =>
    intro y r hr
    have h365 := daysInYear_ge y
    simp only [yearSearch]
    exact ⟨trivial, by omega⟩
  | succ f ih =>
    intro y r hr
    by_cases h : r < daysInYear y
    · simp only [yearSearch, if_pos h]
      exact ⟨trivial, h⟩
    · have h365 := daysInYear_ge y
      have hrec := ih (y + 1) (r - daysInYear y) (by omega)
      simp only [yearSearch, if_neg h]
      have hby := daysBeforeYear_succ y
      exact ⟨by omega, hrec.2⟩

theorem monthSearch_spec (y : Nat) :
    ∀ fuel m r, r + daysBeforeMonth y m < daysBeforeMonth y (m + fuel) →
      m + fuel ≤ 12 →
      daysBeforeMonth y (monthSearch y fuel m r).1 + (monthSearch y fuel m r).2 =
        daysBeforeMonth y m + r ∧
      (monthSearch y fuel m r).2 < daysInMonth y (monthSearch y fuel m r).1 ∧
      (monthSearch y fuel m r).1 < 12 := by
  intro fuel
  induction fuel with
  | zero =>
    intro m r hr _
    rw [Nat.add_zero] at hr
    exact absurd hr (by omega)
  | succ f ih =>
    intro m r hr hm
    by_cases h : r < daysInMonth y m
    · simp only [monthSearch, if_pos h]
      exact ⟨trivial, h, by omega⟩
    · have hrec := ih (m + 1) (r - daysInMonth y m)
        (by
          have hstep := daysBeforeMonth_succ y m
          have hre : m + 1 + f = m + (f + 1) := by omega
          rw [hre]
          omega)
        (by omega)
      simp only [monthSearch, if_neg h]
      have hstep := daysBeforeMonth_succ y m
      exact ⟨by omega, hrec.2.1, hrec.2.2⟩

theorem fromDay_spec (n : Nat) :
    toDay (fromDay n).1 (fromDay n).2.1 (fromDay n).2.2 = n ∧
    (fromDay n).2.1 < 12 ∧ 1 ≤ (fromDay n).2.2 ∧
    (fromDay n).2.2 ≤ daysInMonth (fromDay n).1 (fromDay n).2.1 := by
  have hstart := daysBeforeYear_start n
  have hys := yearSearch_spec ((n - daysBeforeYear (n / 366)) / 365 + 1)
    (n / 366) (n - daysBeforeYear (n / 366)) (by omega)
  set p := yearSearch ((n - daysBeforeYear (n / 366)) / 365 + 1) (n / 366)
    (n - daysBeforeYear (n / 366)) with hp
  have h0 : daysBeforeMonth p.1 0 = 0 := rfl
  have h12 := daysBeforeMonth_twelve p.1
  have hys1 : daysBeforeYear p.1 + p.2 = n := by omega
  have hms := monthSearch_spec p.1 12 0 p.2
    (by rw [h0, Nat.zero_add, h12]; omega)
    (by omega)
  set q := monthSearch p.1 12 0 p.2 with hq
  rw [h0] at hms
  have hfd : fromDay n = (p.1, q.1, q.2 + 1) := by
    simp only [fromDay, ← hp, ← hq]
  rw [hfd]
  simp only [toDay, Nat.add_sub_cancel]
  exact ⟨by omega, hms.2.2, by omega, by omega⟩

theorem parse_toYYYYMMDD (n : Nat) : parseDate (toYYYYMMDD n) = n := by
  have h := fromDay_spec n
  simp only [parseDate, toYYYYMMDD, Nat.add_sub_cancel]
  exact h.1

theorem toDay_month_succ (tt d : Nat) :
    toDay ((tt + 1) / 12) ((tt + 1) % 12) d =
      toDay (tt / 12) (tt % 12) d + daysInMonth (tt / 12) (tt % 12) := by
  by_cases h : tt % 12 < 11
  · have e1 : (tt + 1) / 12 = tt / 12 := by omega
    have e2 : (tt + 1) % 12 = tt % 12 + 1 := by omega
    rw [e1, e2]
    simp only [toDay, daysBeforeMonth_succ]
    omega
  · have e1 : (tt + 1) / 12 = tt / 12 + 1 := by omega
    have e2 : (tt + 1) % 12 = 0 := by omega
    have e3 : tt % 12 = 11 := by omega
    rw [e1, e2, e3]
    simp only [toDay, daysBeforeMonth]
    have hby := daysBeforeYear_succ (tt / 12)
    have h12 : daysBeforeMonth (tt / 12) 12 = daysInYear (tt / 12) :=
      daysBeforeMonth_twelve (tt / 12)
    have h11 : daysBeforeMonth (tt / 12) 12 =
        daysBeforeMonth (tt / 12) 11 + daysInMonth (tt / 12) 11 := rfl
    simp only [daysBeforeMonth] at h11 h12
    omega

theorem toDay_month_lt (k : Nat) (hk : 1 ≤ k) :
    ∀ tt d, toDay (tt / 12) (tt % 12) d < toDay ((tt + k) / 12) ((tt + k) % 12) d := by
  induction k with
  | zero => omega
  | succ kk ih =>
    intro tt d
    by_cases hkk : 1 ≤ kk
    · have h1 := ih hkk tt d
      have h2 := toDay_month_succ (tt + kk) d
      have hge := daysInMonth_ge ((tt + kk) / 12) ((tt + kk) % 12) (by omega)
      have : tt + (kk + 1) = tt + kk + 1 := by omega
      rw [this]
      omega
    · have hz : kk = 0 := by omega
      subst hz
      have hre : tt + (0 + 1) = tt + 1 := by omega
      rw [hre]
      have h2 := toDay_month_succ tt d
      have hge := daysInMonth_ge (tt / 12) (tt % 12) (by omega)
      omega

theorem addMonths_lt (n k : Nat) (hk : 1 ≤ k) : n < addMonths n k := by
  obtain ⟨h1, h2, h3, h4⟩ := fromDay_spec n
  set p := fromDay n with hp
  have heq : 12 * p.1 + p.2.1 = p.2.1 + 12 * p.1 := by omega
  have hdiv : (12 * p.1 + p.2.1) / 12 = p.1 := by omega
  have hmod : (12 * p.1 + p.2.1) % 12 = p.2.1 := by omega
  have hlt := toDay_month_lt k hk (12 * p.1 + p.2.1) p.2.2
  rw [hdiv, hmod, h1] at hlt
  simpa [addMonths, ← hp, Nat.add_assoc] using hlt

theorem daysBeforeYear_add_le (y k : Nat) :
    daysBeforeYear y + 365 * k ≤ daysBeforeYear (y + k) := by
  induction k with
  | zero => simp
  | succ kk ih =>
    have hstep := daysBeforeYear_succ (y + kk)
    have hge := daysInYear_ge (y + kk)
    have : y + (kk + 1) = y + kk + 1 := by omega
    rw [this]
    omega

theorem daysBeforeMonth_near (y1 y2 m : Nat) (h : m ≤ 12) :
    daysBeforeMonth y2 m ≤ daysBeforeMonth y1 m + 1 := by
  interval_cases m <;> cases hl1 : isLeap y1 <;> cases hl2 : isLeap y2 <;>
    simp [daysBeforeMonth, daysInMonth, monthLen, hl1, hl2]

theorem addYears_lt (n k : Nat) (hk : 1 ≤ k) : n < addYears n k := by
  obtain ⟨h1, h2, h3, h4⟩ := fromDay_spec n
  set p := fromDay n with hp
  have hA := daysBeforeYear_add_le p.1 k
  have hB := daysBeforeMonth_near (p.1 + k) p.1 p.2.1 (by omega)
  have hunf : addYears n k = daysBeforeYear (p.1 + k) +
      daysBeforeMonth (p.1 + k) p.2.1 + (p.2.2 - 1) := by
    simp [addYears, ← hp, toDay]
  rw [hunf]
  simp only [toDay] at h1
  omega

theorem calcNDD_advance (t : Expense) (d d' : Nat)
    (h : calculateNextDueDate t d = some d') : d < d' := by
  unfold calculateNextDueDate at h
  by_cases hf : t.frequency != Freq.recurring
  · simp [hf] at h
  · simp only [hf, Bool.false_eq_true, if_false] at h
    have hi := effInterval_pos t
    match hr : t.recurrence with
    | none => rw [hr] at h; simp at h
    | some .daily => rw [hr] at h; simp at h; omega
    | some .weekly => rw [hr] at h; simp at h; omega
    | some .monthly =>
      rw [hr] at h; simp at h
      have := addMonths_lt d (effInterval t) hi
      omega
    | some .yearly =>
      rw [hr] at h; simp at h
      have := addYears_lt d (effInterval t) hi
      omega

/-! Generation-loop lemmas: unfolding equations, queue growth, and the
exit characterisation the idempotence and invariant proofs rest on. -/

theorem genLoop_none (t : Expense) (today : Nat) (E : List Expense)
    (fuel : Nat) (st : GenState) (lg : Option Ymd) :
    genLoop t today E fuel st none lg = (st, lg) := by
  cases fuel <;> rfl

theorem genLoop_zero (t : Expense) (today : Nat) (E : List Expense)
    (st : GenState) (nd : Option Nat) (lg : Option Ymd) :
    genLoop t today E 0 st nd lg = (st, lg) := by
  cases nd <;> rfl

theorem genLoop_succ (t : Expense) (today : Nat) (E : List Expense)
    (fuel : Nat) (st : GenState) (nd : Nat) (lg : Option Ymd) :
    genLoop t today E (fuel + 1) st (some nd) lg =
      if nd ≤ today then
        if dateBreak t nd then (st, lg)
        else if countBreak t (countRefs t.id E + countRefs t.id st.newExpenses)
          then (st, lg)
        else
          genLoop t today E fuel
            (if instanceExists t.id (toYYYYMMDD nd) E ||
                instanceExists t.id (toYYYYMMDD nd) st.newExpenses then st
             else ⟨st.newExpenses ++ [materialize t st.nextId (toYYYYMMDD nd)],
                st.nextId + 1⟩)
            (calculateNextDueDate t nd) (some (toYYYYMMDD nd))
      else (st, lg) := rfl

theorem countRefs_append (tid : Nat) (xs ys : List Expense) :
    countRefs tid (xs ++ ys) = countRefs tid xs + countRefs tid ys := by
  simp [countRefs, List.filter_append]

theorem instanceExists_append (tid : Nat) (s : Ymd) (xs ys : List Expense) :
    instanceExists tid s (xs ++ ys) =
      (instanceExists tid s xs || instanceExists tid s ys) := by
  simp [instanceExists, List.any_append]

theorem countBreak_iff (t : Expense) (total : Nat) :
    countBreak t total = true ↔
      t.recurrenceEndType = some .count ∧
        ∃ c, t.recurrenceCount = some c ∧ c ≠ 0 ∧ c ≤ total := by
  unfold countBreak
  match h : t.recurrenceCount with
  | none => simp [h]
  | some 0 => simp [h]
  | some (c + 1) =>
    simp only [h, Bool.and_eq_true, beq_iff_eq, decide_eq_true_eq,
      Option.some.injEq]
    constructor
    · rintro ⟨h1, h2⟩
      exact ⟨h1, c + 1, rfl, by omega, h2⟩
    · rintro ⟨h1, c', hc', hne, hle⟩
      exact ⟨h1, by omega⟩

/-- Exit condition of the loop at a candidate: past today, or stopped by
the date rule, or stopped by the count rule at the given reference count
bound. -/
def ExitNow (t : Expense) (today bnd : Nat) : Option Nat → Prop
  | none => True
  | some d =>
    today < d ∨ dateBreak t d = true ∨
      (t.recurrenceEndType = some .count ∧
        ∃ c, t.recurrenceCount = some c ∧ c ≠ 0 ∧ c ≤ bnd)

theorem ExitNow_mono (t : Expense) (today b b' : Nat) (nd : Option Nat)
    (h : ExitNow t today b nd) (hle : b ≤ b') : ExitNow t today b' nd := by
  match nd with
  | none => trivial
  | some d =>
    rcases h with h | h | ⟨h1, c, h2, h3, h4⟩
    · exact Or.inl h
    · exact Or.inr (Or.inl h)
    · exact Or.inr (Or.inr ⟨h1, c, h2, h3, by omega⟩)

theorem ExitNow_setLG (t : Expense) (x : Option Ymd) (today bnd : Nat)
    (nd : Option Nat) :
    ExitNow { t with lastGeneratedDate := x } today bnd nd ↔
      ExitNow t today bnd nd := Iff.rfl

theorem dateBreak_setLG (t : Expense) (x : Option Ymd) (d : Nat) :
    dateBreak { t with lastGeneratedDate := x } d = dateBreak t d := rfl

theorem calcNDD_setLG (t : Expense) (x : Option Ymd) (d : Nat) :
    calculateNextDueDate { t with lastGeneratedDate := x } d =
      calculateNextDueDate t d := rfl

theorem genLoop_queue (t : Expense) (today : Nat) (E : List Expense) :
    ∀ fuel st nd lg,
      ∃ ext,
        (genLoop t today E fuel st nd lg).1.newExpenses =
          st.newExpenses ++ ext ∧
        ∀ e ∈ ext, ∃ idv dv, e = materialize t idv (toYYYYMMDD dv) ∧
          dv ≤ today ∧ dateBreak t dv = false := by
  intro fuel
  induction fuel with
  | zero =>
    intro st nd lg
    rw [genLoop_zero]
    exact ⟨[], by simp, by simp⟩
  | succ f ih =>
    intro st nd lg
    match nd with
    | none =>
      rw [genLoop_none]
      exact ⟨[], by simp, by simp⟩
    | some d =>
      rw [genLoop_succ]
      by_cases hle : d ≤ today
      · rw [if_pos hle]
        by_cases hdb : dateBreak t d
        · rw [if_pos hdb]
          exact ⟨[], by simp, by simp⟩
        · rw [if_neg hdb]
          by_cases hcb : countBreak t
              (countRefs t.id E + countRefs t.id st.newExpenses)
          · rw [if_pos hcb]
            exact ⟨[], by simp, by simp⟩
          · rw [if_neg hcb]
            by_cases hex : instanceExists t.id (toYYYYMMDD d) E ||
                instanceExists t.id (toYYYYMMDD d) st.newExpenses
            · rw [if_pos hex]
              obtain ⟨ext, h1, h2⟩ := ih st (calculateNextDueDate t d)
                (some (toYYYYMMDD d))
              exact ⟨ext, h1, h2⟩
            · rw [if_neg hex]
              obtain ⟨ext, h1, h2⟩ := ih
                ⟨st.newExpenses ++ [materialize t st.nextId (toYYYYMMDD d)],
                  st.nextId + 1⟩
                (calculateNextDueDate t d) (some (toYYYYMMDD d))
              refine ⟨materialize t st.nextId (toYYYYMMDD d) :: ext, ?_, ?_⟩
              · rw [h1]
                simp
              · intro e he
                rcases List.mem_cons.mp he with he | he
                · exact ⟨st.nextId, d, he, hle, by simpa using hdb⟩
                · exact h2 e he
      · rw [if_neg hle]
        exact ⟨[], by simp, by simp⟩

theorem instanceExists_push (t : Expense) (idv : Nat) (s : Ymd)
    (q : List Expense) :
    instanceExists t.id s (q ++ [materialize t idv s]) = true := by
  rw [instanceExists_append]
  have h : instanceExists t.id s [materialize t idv s] = true := by
    simp [instanceExists, materialize]
  simp [h]

theorem genLoop_post (t : Expense) (today : Nat) (E : List Expense) :
    ∀ fuel st nd lg, loopBound today nd ≤ fuel →
      (genLoop t today E fuel st nd lg = (st, lg) ∧
        ExitNow t today (countRefs t.id E + countRefs t.id st.newExpenses) nd) ∨
      (∃ dl, dl ≤ today ∧
        (genLoop t today E fuel st nd lg).2 = some (toYYYYMMDD dl) ∧
        ExitNow t today
          (countRefs t.id E +
            countRefs t.id (genLoop t today E fuel st nd lg).1.newExpenses)
          (calculateNextDueDate t dl) ∧
        (instanceExists t.id (toYYYYMMDD dl) E = true ∨
          instanceExists t.id (toYYYYMMDD dl)
            (genLoop t today E fuel st nd lg).1.newExpenses = true) ∧
        ∀ d0, nd = some d0 → d0 ≤ dl) := by
  intro fuel
  induction fuel with
  | zero =>
    intro st nd lg h
    match nd with
    | none =>
      rw [genLoop_none]
      exact Or.inl ⟨rfl, trivial⟩
    | some d =>
      rw [genLoop_zero]
      simp only [loopBound] at h
      exact Or.inl ⟨rfl, Or.inl (by omega)⟩
  | succ f ih =>
    intro st nd lg h
    match nd with
    | none =>
      rw [genLoop_none]
      exact Or.inl ⟨rfl, trivial⟩
    | some d =>
      rw [genLoop_succ]
      by_cases hle : d ≤ today
      · rw [if_pos hle]
        by_cases hdb : dateBreak t d
        · rw [if_pos hdb]
          exact Or.inl ⟨rfl, Or.inr (Or.inl hdb)⟩
        · rw [if_neg hdb]
          by_cases hcb : countBreak t
              (countRefs t.id E + countRefs t.id st.newExpenses)
          · rw [if_pos hcb]
            exact Or.inl ⟨rfl, Or.inr (Or.inr ((countBreak_iff t _).mp hcb))⟩
          · rw [if_neg hcb]
            by_cases hex : instanceExists t.id (toYYYYMMDD d) E ||
                instanceExists t.id (toYYYYMMDD d) st.newExpenses
            · rw [if_pos hex]
              have hinst : instanceExists t.id (toYYYYMMDD d) E = true ∨
                  instanceExists t.id (toYYYYMMDD d) st.newExpenses = true := by
                rcases Bool.or_eq_true_iff.mp hex with h' | h'
                · exact Or.inl h'
                · exact Or.inr h'
              match hnd : calculateNextDueDate t d with
              | none =>
                rw [genLoop_none]
                refine Or.inr ⟨d, hle, rfl, ?_, hinst, ?_⟩
                · rw [hnd]; trivial
                · intro d0 hd0; cases hd0; omega
              | some d' =>
                have hadv := calcNDD_advance t d d' hnd
                have hf : loopBound today (some d') ≤ f := by
                  simp only [loopBound] at h ⊢; omega
                rcases ih st (some d') (some (toYYYYMMDD d)) hf with
                  ⟨heq, hex2⟩ | ⟨dl, hdl, hr2, hexit, hinst2, hbnd⟩
                · rw [heq]
                  refine Or.inr ⟨d, hle, rfl, ?_, hinst, ?_⟩
                  · rw [hnd]; exact hex2
                  · intro d0 hd0; cases hd0; omega
                · refine Or.inr ⟨dl, hdl, hr2, hexit, hinst2, ?_⟩
                  intro d0 hd0
                  cases hd0
                  have := hbnd d' rfl
                  omega
            · rw [if_neg hex]
              have hinst : instanceExists t.id (toYYYYMMDD d)
                  (st.newExpenses ++ [materialize t st.nextId (toYYYYMMDD d)]) =
                    true := instanceExists_push t st.nextId (toYYYYMMDD d)
                    st.newExpenses
              match hnd : calculateNextDueDate t d with
              | none =>
                rw [genLoop_none]
                refine Or.inr ⟨d, hle, rfl, ?_, Or.inr hinst, ?_⟩
                · rw [hnd]; trivial
                · intro d0 hd0; cases hd0; omega
              | some d' =>
                have hadv := calcNDD_advance t d d' hnd
                have hf : loopBound today (some d') ≤ f := by
                  simp only [loopBound] at h ⊢; omega
                rcases ih ⟨st.newExpenses ++ [materialize t st.nextId
                    (toYYYYMMDD d)], st.nextId + 1⟩ (some d')
                    (some (toYYYYMMDD d)) hf with
                  ⟨heq, hex2⟩ | ⟨dl, hdl, hr2, hexit, hinst2, hbnd⟩
                · rw [heq]
                  refine Or.inr ⟨d, hle, rfl, ?_, Or.inr hinst, ?_⟩
                  · rw [hnd]; exact hex2
                  · intro d0 hd0; cases hd0; omega
                · refine Or.inr ⟨dl, hdl, hr2, hexit, hinst2, ?_⟩
                  intro d0 hd0
                  cases hd0
                  have := hbnd d' rfl
                  omega
      · rw [if_neg hle]
        exact Or.inl ⟨rfl, Or.inl (by omega)⟩

/-! Per-template lemmas: exit shortcuts and the characterisation of one
processTemplate step. -/

theorem instanceExists_iff (tid : Nat) (s : Ymd) (es : List Expense) :
    instanceExists tid s es = true ↔
      ∃ e ∈ es, e.recurringExpenseId = some tid ∧ e.date = some s := by
  simp [instanceExists]

theorem genLoop_exit (t : Expense) (today : Nat) (E : List Expense)
    (st : GenState) (lg : Option Ymd) (d : Nat)
    (h : ExitNow t today (countRefs t.id E + countRefs t.id st.newExpenses)
      (some d)) :
    ∀ fuel, genLoop t today E fuel st (some d) lg = (st, lg) := by
  intro fuel
  cases fuel with
  | zero => exact genLoop_zero t today E st (some d) lg
  | succ f =>
    rw [genLoop_succ]
    by_cases hle : d ≤ today
    · rw [if_pos hle]
      rcases h with h | h | h
      · omega
      · rw [if_pos h]
      · by_cases hdb : dateBreak t d
        · rw [if_pos hdb]
        · rw [if_neg hdb, if_pos ((countBreak_iff t _).mpr h)]
    · rw [if_neg hle]

/-- The first candidate of the template already meets an exit condition,
measured against the expense list plus the given queue. -/
def Stalls (today : Nat) (E : List Expense) (t : Expense)
    (st : GenState) : Prop :=
  ∀ d0, t.date = some d0 →
    ExitNow t today (countRefs t.id E + countRefs t.id st.newExpenses)
      (initialNextDue t d0)

theorem processTemplate_none (today : Nat) (E : List Expense) (t : Expense)
    (st : GenState) (up : List Expense) (h : t.date = none) :
    processTemplate today E t st up = (st, up) := by
  unfold processTemplate
  rw [h]

theorem processTemplate_some (today : Nat) (E : List Expense) (t : Expense)
    (st : GenState) (up : List Expense) (d0 : Ymd) (h : t.date = some d0) :
    processTemplate today E t st up =
      ((genLoop t today E (loopBound today (initialNextDue t d0)) st
          (initialNextDue t d0) t.lastGeneratedDate).1,
        pushUpdate t
          (genLoop t today E (loopBound today (initialNextDue t d0)) st
            (initialNextDue t d0) t.lastGeneratedDate).2 up) := by
  unfold processTemplate
  rw [h]

theorem pushUpdate_self (t : Expense) (up : List Expense) :
    pushUpdate t t.lastGeneratedDate up = up := by
  unfold pushUpdate
  match h : t.lastGeneratedDate with
  | none => rfl
  | some s => simp [h]

theorem initialNextDue_some (t : Expense) (d0 s : Ymd)
    (h : t.lastGeneratedDate = some s) :
    initialNextDue t d0 = calculateNextDueDate t (parseDate s) := by
  unfold initialNextDue
  rw [h]

theorem processTemplate_stalls (today : Nat) (E : List Expense) (t : Expense)
    (st : GenState) (up : List Expense) (h : Stalls today E t st) :
    processTemplate today E t st up = (st, up) := by
  match hdate : t.date with
  | none => exact processTemplate_none today E t st up hdate
  | some d0 =>
    rw [processTemplate_some today E t st up d0 hdate]
    have h2 : ExitNow t today
        (countRefs t.id E + countRefs t.id st.newExpenses)
        (initialNextDue t d0) := h d0 hdate
    match hnd : initialNextDue t d0 with
    | none =>
      rw [genLoop_none]
      show (st, pushUpdate t t.lastGeneratedDate up) = (st, up)
      rw [pushUpdate_self]
    | some d =>
      rw [hnd] at h2
      rw [genLoop_exit t today E st t.lastGeneratedDate d h2]
      show (st, pushUpdate t t.lastGeneratedDate up) = (st, up)
      rw [pushUpdate_self]
/-- Everything a queued template update certifies: it is a template copy
whose cursor points at a materialised-or-found occurrence date from
which the loop exited. -/
def UpProp (today : Nat) (E : List Expense) (st : GenState)
    (u : Expense) : Prop :=
  ∃ t s dl, u = { t with lastGeneratedDate := some s } ∧
    s = toYYYYMMDD dl ∧ dl ≤ today ∧
    ExitNow t today (countRefs t.id E + countRefs t.id st.newExpenses)
      (calculateNextDueDate t dl) ∧
    (instanceExists t.id s E = true ∨
      instanceExists t.id s st.newExpenses = true)

theorem UpProp_mono (today : Nat) (E : List Expense) (st st' : GenState)
    (u : Expense) (h : UpProp today E st u)
    (hext : ∃ ext, st'.newExpenses = st.newExpenses ++ ext) :
    UpProp today E st' u := by
  obtain ⟨t, s, dl, h1, h2, h3, h4, h5⟩ := h
  obtain ⟨ext, hee⟩ := hext
  refine ⟨t, s, dl, h1, h2, h3, ?_, ?_⟩
  · refine ExitNow_mono t today _ _ _ h4 ?_
    rw [hee, countRefs_append]
    omega
  · rcases h5 with h5 | h5
    · exact Or.inl h5
    · refine Or.inr ?_
      rw [hee, instanceExists_append, h5]
      simp

theorem Stalls_mono (today : Nat) (E : List Expense) (t : Expense)
    (st st' : GenState) (h : Stalls today E t st)
    (hext : ∃ ext, st'.newExpenses = st.newExpenses ++ ext) :
    Stalls today E t st' := by
  intro d0 hdate
  obtain ⟨ext, hee⟩ := hext
  refine ExitNow_mono t today _ _ _ (h d0 hdate) ?_
  rw [hee, countRefs_append]
  omega

theorem processTemplate_post (today : Nat) (E : List Expense) (t : Expense)
    (st : GenState) (up : List Expense) :
    (∃ ext, (processTemplate today E t st up).1.newExpenses =
        st.newExpenses ++ ext ∧
      ∀ e ∈ ext, ∃ idv dv, e = materialize t idv (toYYYYMMDD dv) ∧
        dv ≤ today ∧ dateBreak t dv = false) ∧
    ((processTemplate today E t st up).2 = up ∧
        Stalls today E t (processTemplate today E t st up).1 ∨
      ∃ s, (processTemplate today E t st up).2 =
          up ++ [{ t with lastGeneratedDate := some s }] ∧
        UpProp today E (processTemplate today E t st up).1
          { t with lastGeneratedDate := some s }) := by
  match hdate : t.date with
  | none =>
    rw [processTemplate_none today E t st up hdate]
    refine ⟨⟨[], by simp, by simp⟩, Or.inl ⟨rfl, ?_⟩⟩
    intro d0 hd0
    rw [hdate] at hd0
    exact Option.noConfusion hd0
  | some d0 =>
    rw [processTemplate_some today E t st up d0 hdate]
    have hq := genLoop_queue t today E (loopBound today (initialNextDue t d0))
      st (initialNextDue t d0) t.lastGeneratedDate
    have hpost := genLoop_post t today E
      (loopBound today (initialNextDue t d0)) st (initialNextDue t d0)
      t.lastGeneratedDate (Nat.le_refl _)
    set r := genLoop t today E (loopBound today (initialNextDue t d0)) st
      (initialNextDue t d0) t.lastGeneratedDate with hr
    match hr2 : r.2 with
    | none =>
      refine ⟨hq, Or.inl ⟨rfl, ?_⟩⟩
      rcases hpost with ⟨heq, hex⟩ | ⟨dl, hdl2, hsome, hrest⟩
      · intro d0' hd0'
        rw [hdate] at hd0'
        obtain rfl := Option.some.inj hd0'
        have h1 : r.1 = st := by rw [heq]
        show ExitNow t today
          (countRefs t.id E + countRefs t.id r.1.newExpenses)
          (initialNextDue t d0)
        rw [h1]
        exact hex
      · rw [hr2] at hsome
        cases hsome
    | some s =>
      have hunf : pushUpdate t (some s) up =
          if t.lastGeneratedDate == some s then up
          else up ++ [{ t with lastGeneratedDate := some s }] := rfl
      rw [hunf]
      by_cases hbe : t.lastGeneratedDate == some s
      · rw [if_pos hbe]
        have hlg : t.lastGeneratedDate = some s := eq_of_beq hbe
        refine ⟨hq, Or.inl ⟨rfl, ?_⟩⟩
        rcases hpost with ⟨heq, hex⟩ | ⟨dl, hdl, hsome, hexit, hinst, hbnd⟩
        · intro d0' hd0'
          rw [hdate] at hd0'
          obtain rfl := Option.some.inj hd0'
          have h1 : r.1 = st := by rw [heq]
          show ExitNow t today
            (countRefs t.id E + countRefs t.id r.1.newExpenses)
            (initialNextDue t d0)
          rw [h1]
          exact hex
        · intro d0' hd0'
          rw [hdate] at hd0'
          obtain rfl := Option.some.inj hd0'
          rw [hr2] at hsome
          have hs : s = toYYYYMMDD dl := Option.some.inj hsome
          have hini : initialNextDue t d0 = calculateNextDueDate t dl := by
            rw [initialNextDue_some t d0 s hlg, hs, parse_toYYYYMMDD]
          show ExitNow t today
            (countRefs t.id E + countRefs t.id r.1.newExpenses)
            (initialNextDue t d0)
          rw [hini]
          exact hexit
      · rw [if_neg hbe]
        rcases hpost with ⟨heq, hex⟩ | ⟨dl, hdl, hsome, hexit, hinst, hbnd⟩
        · have hcontra : r.2 = t.lastGeneratedDate := by rw [heq]
          rw [hr2] at hcontra
          rw [← hcontra] at hbe
          simp at hbe
        · rw [hr2] at hsome
          have hs : s = toYYYYMMDD dl := Option.some.inj hsome
          refine ⟨hq, Or.inr ⟨s, ?_, t, s, dl, ?_, hs, hdl, ?_, ?_⟩⟩
          · rw [hdate]
          · rw [hdate]
          · exact hexit
          · rw [hs]
            exact hinst

/-! Fold-level lemmas over the template list. -/

/-- Exit condition of a template measured against a plain expense list
(no in-flight queue). -/
def StallsE (today : Nat) (E2 : List Expense) (t : Expense) : Prop :=
  ∀ d0, t.date = some d0 →
    ExitNow t today (countRefs t.id E2) (initialNextDue t d0)

theorem StallsE_stalls (today : Nat) (E2 : List Expense) (t : Expense)
    (st : GenState) (h : StallsE today E2 t) : Stalls today E2 t st := by
  intro d0 hdate
  exact ExitNow_mono t today _ _ _ (h d0 hdate) (by omega)

theorem runTemplates_step (today : Nat) (E : List Expense) (t : Expense)
    (ts : List Expense) (st : GenState) (up : List Expense) :
    runTemplates today E (t :: ts) st up =
      runTemplates today E ts (processTemplate today E t st up).1
        (processTemplate today E t st up).2 := rfl

theorem runTemplates_noop (today : Nat) (E2 : List Expense) :
    ∀ ts st up, (∀ t ∈ ts, StallsE today E2 t) →
      runTemplates today E2 ts st up = (st, up) := by
  intro ts
  induction ts with
  | nil => intro st up h; rfl
  | cons t ts ih =>
    intro st up h
    rw [runTemplates_step,
      processTemplate_stalls today E2 t st up
        (StallsE_stalls today E2 t st (h t (List.mem_cons_self t ts)))]
    exact ih st up fun t' ht' => h t' (List.mem_cons_of_mem t ht')

theorem runTemplates_upExt (today : Nat) (E : List Expense) :
    ∀ ts st up, ∃ extu,
      (runTemplates today E ts st up).2 = up ++ extu := by
  intro ts
  induction ts with
  | nil =>
    intro st up
    exact ⟨[], by simp [runTemplates]⟩
  | cons t ts ih =>
    intro st up
    rw [runTemplates_step]
    obtain ⟨extu, hextu⟩ := ih (processTemplate today E t st up).1
      (processTemplate today E t st up).2
    obtain ⟨hq, hupd⟩ := processTemplate_post today E t st up
    rcases hupd with ⟨he, h2⟩ | ⟨s, he, h2⟩
    · exact ⟨extu, by rw [hextu, he]⟩
    · refine ⟨{ t with lastGeneratedDate := some s } :: extu, ?_⟩
      rw [hextu, he]
      simp

theorem runTemplates_post (today : Nat) (E : List Expense) :
    ∀ ts st up,
      (∀ u ∈ up, UpProp today E st u) →
      (∃ ext, (runTemplates today E ts st up).1.newExpenses =
          st.newExpenses ++ ext ∧
        ∀ e ∈ ext, ∃ t ∈ ts, ∃ idv dv,
          e = materialize t idv (toYYYYMMDD dv) ∧ dv ≤ today ∧
          dateBreak t dv = false) ∧
      (∀ u ∈ (runTemplates today E ts st up).2,
        UpProp today E (runTemplates today E ts st up).1 u) ∧
      (∀ t ∈ ts, (∃ u ∈ (runTemplates today E ts st up).2, u.id = t.id) ∨
        Stalls today E t (runTemplates today E ts st up).1) := by
  intro ts
  induction ts with
  | nil =>
    intro st up hup
    refine ⟨⟨[], by simp [runTemplates], by simp⟩, ?_, by simp⟩
    simpa [runTemplates] using hup
  | cons t ts ih =>
    intro st up hup
    obtain ⟨⟨ext1, hq1, hqp1⟩, hupd⟩ := processTemplate_post today E t st up
    rw [runTemplates_step]
    have hup' : ∀ u ∈ (processTemplate today E t st up).2,
        UpProp today E (processTemplate today E t st up).1 u := by
      rcases hupd with ⟨he, hst⟩ | ⟨s, he, hu⟩
      · rw [he]
        intro u hu'
        exact UpProp_mono today E st _ u (hup u hu') ⟨ext1, hq1⟩
      · rw [he]
        intro u hu'
        rcases List.mem_append.mp hu' with h' | h'
        · exact UpProp_mono today E st _ u (hup u h') ⟨ext1, hq1⟩
        · rw [List.mem_singleton.mp h']
          exact hu
    obtain ⟨⟨ext2, hq2, hqp2⟩, hupfin, htfin⟩ :=
      ih (processTemplate today E t st up).1 (processTemplate today E t st up).2
        hup'
    refine ⟨⟨ext1 ++ ext2, ?_, ?_⟩, hupfin, ?_⟩
    · rw [hq2, hq1, List.append_assoc]
    · intro e he
      rcases List.mem_append.mp he with h' | h'
      · obtain ⟨idv, dv, hm⟩ := hqp1 e h'
        exact ⟨t, List.mem_cons_self t ts, idv, dv, hm⟩
      · obtain ⟨t', ht', hrest⟩ := hqp2 e h'
        exact ⟨t', List.mem_cons_of_mem t ht', hrest⟩
    · intro t' ht'
      rcases List.mem_cons.mp ht' with h' | h'
      · subst h'
        rcases hupd with ⟨he, hst⟩ | ⟨s, he, hu⟩
        · exact Or.inr (Stalls_mono today E t' _ _ hst ⟨ext2, hq2⟩)
        · refine Or.inl ⟨{ t' with lastGeneratedDate := some s }, ?_, rfl⟩
          have hupsub : ∀ x ∈ (processTemplate today E t' st up).2,
              x ∈ (runTemplates today E ts (processTemplate today E t' st up).1
                (processTemplate today E t' st up).2).2 := by
            intro x hx
            obtain ⟨⟨ext3, hq3, hqp3⟩, hupd3⟩ := processTemplate_post today E t' st up
            obtain ⟨extu, hextu⟩ := runTemplates_upExt today E ts
              (processTemplate today E t' st up).1
              (processTemplate today E t' st up).2
            rw [hextu]
            exact List.mem_append_left extu hx
          refine hupsub _ ?_
          rw [he]
          exact List.mem_append_right up (List.mem_singleton_self _)
      · exact htfin t' h'

/-! Idempotence assembly: after applying one pass's delta, every merged
template stalls against the grown expense list. -/

theorem applyTemplates_stallsE (T E : List Expense) (today id0 : Nat) :
    ∀ u ∈ applyTemplates (generate T E today id0) T,
      StallsE today (applyExpenses (generate T E today id0) E) u := by
  obtain ⟨⟨ext, hq, hqp⟩, hupfin, htfin⟩ :=
    runTemplates_post today E T ⟨[], id0⟩ [] (by simp)
  set R := runTemplates today E T ⟨[], id0⟩ [] with hR
  intro u hu
  have hu' : u ∈ T.map
      (fun t => ((R.2.find? fun v => v.id == t.id).getD t)) := hu
  obtain ⟨t, htT, hut⟩ := List.mem_map.mp hu'
  show StallsE today (R.1.newExpenses ++ E) u
  cases hfind : R.2.find? fun v => v.id == t.id with
  | none =>
    rw [hfind] at hut
    simp only [Option.getD_none] at hut
    subst hut
    rcases htfin t htT with ⟨u', hu'R, hid⟩ | hstalls
    · have hne := List.find?_eq_none.mp hfind u' hu'R
      simp [hid] at hne
    · intro d0 hd0
      refine ExitNow_mono t today _ _ _ (hstalls d0 hd0) ?_
      rw [countRefs_append]
      omega
  | some v =>
    rw [hfind] at hut
    simp only [Option.getD_some] at hut
    subst hut
    have hvR := List.mem_of_find?_eq_some hfind
    obtain ⟨t0, s, dl, hvu, hs, hdl, hexit, hinst⟩ := hupfin v hvR
    intro d0 hd0
    have hlg : v.lastGeneratedDate = some s := by rw [hvu]
    have hid : v.id = t0.id := by rw [hvu]
    have hcn : calculateNextDueDate { t0 with lastGeneratedDate := some s }
        (parseDate s) = calculateNextDueDate t0 (parseDate s) := rfl
    have hIN : initialNextDue v d0 = calculateNextDueDate t0 dl := by
      rw [initialNextDue_some v d0 s hlg, hvu, hcn, hs, parse_toYYYYMMDD]
    rw [hIN, hid, hvu]
    exact ExitNow_mono t0 today _ _ _ hexit
      (by rw [countRefs_append]; omega)

theorem genLoop_fuel_irrel (t : Expense) (today : Nat) (E : List Expense) :
    ∀ f1 f2 st nd lg, loopBound today nd ≤ f1 → loopBound today nd ≤ f2 →
      genLoop t today E f1 st nd lg = genLoop t today E f2 st nd lg := by
  intro f1
  induction f1 with
  | zero =>
    intro f2 st nd lg h1 h2
    match nd with
    | none => rw [genLoop_none, genLoop_none]
    | some d =>
      simp only [loopBound] at h1
      rw [genLoop_zero]
      match f2 with
      | 0 => rw [genLoop_zero]
      | f2 + 1 =>
        rw [genLoop_succ, if_neg (by omega)]
  | succ f1 ih =>
    intro f2 st nd lg h1 h2
    match nd with
    | none => rw [genLoop_none, genLoop_none]
    | some d =>
      by_cases hle : d ≤ today
      · have hb : 1 ≤ loopBound today (some d) := by
          simp only [loopBound]; omega
        match f2 with
        | 0 => omega
        | f2 + 1 =>
          rw [genLoop_succ, genLoop_succ, if_pos hle, if_pos hle]
          by_cases hdb : dateBreak t d
          · rw [if_pos hdb, if_pos hdb]
          · rw [if_neg hdb, if_neg hdb]
            by_cases hcb : countBreak t
                (countRefs t.id E + countRefs t.id st.newExpenses)
            · rw [if_pos hcb, if_pos hcb]
            · rw [if_neg hcb, if_neg hcb]
              have hbnd : ∀ d', calculateNextDueDate t d = some d' →
                  loopBound today (some d') ≤ f1 ∧
                  loopBound today (some d') ≤ f2 := by
                intro d' hd'
                have := calcNDD_advance t d d' hd'
                simp only [loopBound] at h1 h2 ⊢
                omega
              match hnd : calculateNextDueDate t d with
              | none => rw [genLoop_none, genLoop_none]
              | some d' =>
                exact ih f2 _ (some d') (some (toYYYYMMDD d))
                  (hbnd d' hnd).1 (hbnd d' hnd).2
      · match f2 with
        | 0 =>
          rw [genLoop_zero, genLoop_succ, if_neg hle]
        | f2 + 1 =>
          rw [genLoop_succ, genLoop_succ, if_neg hle, if_neg hle]

theorem runTemplates_append (today : Nat) (E : List Expense) :
    ∀ xs ys st up,
      runTemplates today E (xs ++ ys) st up =
        runTemplates today E ys (runTemplates today E xs st up).1
          (runTemplates today E xs st up).2 := by
  intro xs
  induction xs with
  | nil => intro ys st up; rfl
  | cons x xs ih =>
    intro ys st up
    rw [List.cons_append, runTemplates_step, runTemplates_step, ih]

/-- A concrete daily template: id 1, start 2024-01-01, recurrence daily,
no interval, no end rule, no cursor. -/
def tmplA : Expense :=
  { id := 1, date := some ⟨2024, 1, 1⟩, amount := 800,
    frequency := .recurring, recurringExpenseId := none,
    recurrence := some .daily, monthlyRecurrenceType := none,
    recurrenceInterval := none, recurrenceDays := none,
    recurrenceEndType := none, recurrenceEndDate := none,
    recurrenceCount := none, lastGeneratedDate := none }

/-! Claim theorems. -/

/-- C1: Idempotence of generation. For every template list, expense list
and today: applying the delta of one generation pass (prepending its
newInstances to the expenses and merging its updatedTemplates into the
templates by id) and generating again with the same today yields an
empty delta, with no new instances and no updated templates. -/
theorem generate_idempotent (T E : List Expense) (today id0 id1 : Nat) :
    (generate (applyTemplates (generate T E today id0) T)
      (applyExpenses (generate T E today id0) E) today id1).newInstances
        = [] ∧
    (generate (applyTemplates (generate T E today id0) T)
      (applyExpenses (generate T E today id0) E) today id1).updatedTemplates
        = [] := by
  have hrun := runTemplates_noop today
    (applyExpenses (generate T E today id0) E)
    (applyTemplates (generate T E today id0) T) ⟨[], id1⟩ []
    (applyTemplates_stallsE T E today id0)
  constructor
  · show (runTemplates today (applyExpenses (generate T E today id0) E)
      (applyTemplates (generate T E today id0) T)
      ⟨[], id1⟩ []).1.newExpenses = []
    rw [hrun]
  · show (runTemplates today (applyExpenses (generate T E today id0) E)
      (applyTemplates (generate T E today id0) T) ⟨[], id1⟩ []).2 = []
    rw [hrun]

/-- C6: Scenario A. A single daily template starting 2024-01-01 with no
end rule and no cursor, over an empty expense list, generated with
today = 2024-01-04 (via parseDate), produces exactly the four instances
dated 2024-01-01 through 2024-01-04 and an updated template whose
lastGeneratedDate is 2024-01-04 (dates via toYYYYMMDD). -/
theorem daily_catchup_four :
    (generate [tmplA] [] (parseDate ⟨2024, 1, 4⟩) 2).newInstances.map
        (fun e => e.date) =
      [some ⟨2024, 1, 1⟩, some ⟨2024, 1, 2⟩, some ⟨2024, 1, 3⟩,
        some ⟨2024, 1, 4⟩] ∧
    (generate [tmplA] [] (parseDate ⟨2024, 1, 4⟩) 2).updatedTemplates =
      [{ tmplA with lastGeneratedDate := some ⟨2024, 1, 4⟩ }] := by
  decide

/-- C8: Termination of the per-template while loop: for every template
and today, fuel of loopBound today nd (one unit per day from the
candidate up to today) is never exhausted, so any larger fuel computes
the same result - the loop performs only finitely many iterations,
because calculateNextDueDate strictly advances the date and iteration
is bounded above by today. -/
theorem genLoop_terminates (t : Expense) (today : Nat) (E : List Expense)
    (st : GenState) (nd : Option Nat) (lg : Option Ymd) (fuel : Nat)
    (h : loopBound today nd ≤ fuel) :
    genLoop t today E fuel st nd lg =
      genLoop t today E (loopBound today nd) st nd lg :=
  genLoop_fuel_irrel t today E fuel (loopBound today nd) st nd lg h
    (Nat.le_refl _)

theorem genLoop_terminates_witness :
    loopBound (parseDate ⟨2024, 1, 4⟩) (some (parseDate ⟨2024, 1, 1⟩)) ≤ 50 ∧
    genLoop tmplA (parseDate ⟨2024, 1, 4⟩) [] 50 ⟨[], 0⟩
        (some (parseDate ⟨2024, 1, 1⟩)) none =
      genLoop tmplA (parseDate ⟨2024, 1, 4⟩) []
        (loopBound (parseDate ⟨2024, 1, 4⟩) (some (parseDate ⟨2024, 1, 1⟩)))
        ⟨[], 0⟩ (some (parseDate ⟨2024, 1, 1⟩)) none :=
  ⟨by decide,
    genLoop_terminates tmplA (parseDate ⟨2024, 1, 4⟩) [] ⟨[], 0⟩
      (some (parseDate ⟨2024, 1, 1⟩)) none 50 (by decide)⟩

/-- C9: A template with no date is skipped atomically: the pass over a
template list containing it returns exactly the delta of the pass over
the list without it - no instances for it, no cursor update for it, and
every other template processed identically. -/
theorem missing_date_skip (A B E : List Expense) (t : Expense)
    (today id0 : Nat) (h : t.date = none) :
    generate (A ++ t :: B) E today id0 = generate (A ++ B) E today id0 := by
  have hRT : runTemplates today E (A ++ t :: B) ⟨[], id0⟩ [] =
      runTemplates today E (A ++ B) ⟨[], id0⟩ [] := by
    rw [runTemplates_append, runTemplates_append, runTemplates_step,
      processTemplate_none today E t _ _ h]
  have hgen1 : generate (A ++ t :: B) E today id0 =
      ⟨(runTemplates today E (A ++ t :: B) ⟨[], id0⟩ []).1.newExpenses,
        (runTemplates today E (A ++ t :: B) ⟨[], id0⟩ []).2,
        (runTemplates today E (A ++ t :: B) ⟨[], id0⟩ []).1.nextId⟩ := rfl
  have hgen2 : generate (A ++ B) E today id0 =
      ⟨(runTemplates today E (A ++ B) ⟨[], id0⟩ []).1.newExpenses,
        (runTemplates today E (A ++ B) ⟨[], id0⟩ []).2,
        (runTemplates today E (A ++ B) ⟨[], id0⟩ []).1.nextId⟩ := rfl
  rw [hgen1, hgen2, hRT]

theorem missing_date_skip_witness :
    ({ tmplA with date := none } : Expense).date = none ∧
    generate ([] ++ { tmplA with date := none } :: [tmplA]) []
        (parseDate ⟨2024, 1, 2⟩) 0 =
      generate ([] ++ [tmplA]) [] (parseDate ⟨2024, 1, 2⟩) 0 :=
  ⟨rfl,
    missing_date_skip [] [tmplA] [] { tmplA with date := none }
      (parseDate ⟨2024, 1, 2⟩) 0 rfl⟩

/-- C10: For a template with recurrenceEndType date but no (or empty)
recurrenceEndDate, neither termination check of the engine ever fires -
the date check requires a truthy end date and the count check a count
end type - so occurrences are materialized up to today as if the
template were unbounded, and the active-template filter reports the
template as active. -/
theorem end_date_unset (t : Expense) (E : List Expense)
    (hf : t.frequency = .recurring)
    (hend : t.recurrenceEndType = some .date)
    (hD : t.recurrenceEndDate = none) :
    (∀ nd, dateBreak t nd = false) ∧
    (∀ total, countBreak t total = false) ∧
    isActive t E = true := by
  refine ⟨?_, ?_, ?_⟩
  · intro nd
    unfold dateBreak
    rw [hend, hD]
    exact rfl
  · intro total
    unfold countBreak
    rw [hend]
    exact rfl
  · unfold isActive
    rw [hf, hend, hD]
    simp [parseLocalYYYYMMDD]

theorem end_date_unset_witness :
    ({ tmplA with recurrenceEndType := some .date } : Expense).frequency
        = .recurring ∧
    ({ tmplA with recurrenceEndType := some .date } : Expense).recurrenceEndType
        = some .date ∧
    ({ tmplA with recurrenceEndType := some .date } : Expense).recurrenceEndDate
        = none ∧
    ((∀ nd, dateBreak { tmplA with recurrenceEndType := some .date } nd
        = false) ∧
      (∀ total, countBreak { tmplA with recurrenceEndType := some .date } total
        = false) ∧
      isActive { tmplA with recurrenceEndType := some .date } [] = true) :=
  ⟨rfl, rfl, rfl,
    end_date_unset { tmplA with recurrenceEndType := some .date } [] rfl rfl
      rfl⟩

/-- C7: Detach/convert. When a recurring template under edit is
resubmitted under its own id with a non-recurring frequency, the submit
handler removes exactly that template from the template collection
(every other template kept unchanged), keeps every existing expense
unchanged, and prepends one new single expense with the fresh id whose
recurrence fields and back-reference are all cleared while the payload
and date are kept. -/
theorem detach_convert (er e : Expense) (templates expenses : List Expense)
    (freshId : Nat) (hid : e.id = er.id) (hfreq : e.frequency ≠ .recurring) :
    (handleFormSubmit (.withId e) (some er) templates expenses freshId).1 =
      templates.filter (fun x => !(x.id == er.id)) ∧
    ∃ ne, (handleFormSubmit (.withId e) (some er) templates expenses
        freshId).2 = ne :: expenses ∧
      ne.id = freshId ∧ ne.frequency = .single ∧ ne.recurrence = none ∧
      ne.monthlyRecurrenceType = none ∧ ne.recurrenceInterval = none ∧
      ne.recurrenceDays = none ∧ ne.recurrenceEndType = none ∧
      ne.recurrenceEndDate = none ∧ ne.recurrenceCount = none ∧
      ne.recurringExpenseId = none ∧ ne.lastGeneratedDate = none ∧
      ne.amount = e.amount ∧ ne.date = e.date := by
  have hcond : (e.id == er.id && !(e.frequency == Freq.recurring)) = true := by
    simp [hid, hfreq]
  have hres : handleFormSubmit (.withId e) (some er) templates expenses
      freshId = (templates.filter fun x => !(x.id == er.id),
        { clearConvert e with id := freshId } :: expenses) := by
    have hstep : handleFormSubmit (.withId e) (some er) templates expenses
        freshId =
        if e.id == er.id && !(e.frequency == Freq.recurring) then
          (templates.filter fun x => !(x.id == er.id),
            { clearConvert e with id := freshId } :: expenses)
        else handleRest (.withId e) templates expenses freshId := rfl
    rw [hstep, if_pos hcond]
  rw [hres]
  exact ⟨rfl, { clearConvert e with id := freshId }, rfl, rfl, rfl, rfl, rfl,
    rfl, rfl, rfl, rfl, rfl, rfl, rfl, rfl, rfl⟩

theorem detach_convert_witness :
    ({ tmplA with frequency := Freq.single } : Expense).id = tmplA.id ∧
    ({ tmplA with frequency := Freq.single } : Expense).frequency ≠
      Freq.recurring ∧
    ((handleFormSubmit (.withId { tmplA with frequency := Freq.single })
        (some tmplA) [tmplA] [] 7).1 =
      [tmplA].filter (fun x => !(x.id == tmplA.id)) ∧
    ∃ ne, (handleFormSubmit (.withId { tmplA with frequency := Freq.single })
        (some tmplA) [tmplA] [] 7).2 = ne :: [] ∧
      ne.id = 7 ∧ ne.frequency = .single ∧ ne.recurrence = none ∧
      ne.monthlyRecurrenceType = none ∧ ne.recurrenceInterval = none ∧
      ne.recurrenceDays = none ∧ ne.recurrenceEndType = none ∧
      ne.recurrenceEndDate = none ∧ ne.recurrenceCount = none ∧
      ne.recurringExpenseId = none ∧ ne.lastGeneratedDate = none ∧
      ne.amount = ({ tmplA with frequency := Freq.single } : Expense).amount ∧
      ne.date = ({ tmplA with frequency := Freq.single } : Expense).date) :=
  ⟨rfl, by decide,
    detach_convert tmplA { tmplA with frequency := Freq.single } [tmplA] [] 7
      rfl (by decide)⟩

/-! Fresh-id bookkeeping: queued instance ids form a window above the
initial counter and are pairwise distinct. -/

/-- Id window invariant of a pass state. -/
def IdsOk (id0 : Nat) (st : GenState) : Prop :=
  id0 ≤ st.nextId ∧ (st.newExpenses.map fun e => e.id).Nodup ∧
  ∀ e ∈ st.newExpenses, id0 ≤ e.id ∧ e.id < st.nextId

theorem genLoop_ids (t : Expense) (today : Nat) (E : List Expense)
    (id0 : Nat) :
    ∀ fuel st nd lg, IdsOk id0 st →
      IdsOk id0 (genLoop t today E fuel st nd lg).1 := by
  intro fuel
  induction fuel with
  | zero =>
    intro st nd lg h
    rw [genLoop_zero]
    exact h
  | succ f ih =>
    intro st nd lg h
    match nd with
    | none =>
      rw [genLoop_none]
      exact h
    | some d =>
      rw [genLoop_succ]
      by_cases hle : d ≤ today
      · rw [if_pos hle]
        by_cases hdb : dateBreak t d
        · rw [if_pos hdb]
          exact h
        · rw [if_neg hdb]
          by_cases hcb : countBreak t
              (countRefs t.id E + countRefs t.id st.newExpenses)
          · rw [if_pos hcb]
            exact h
          · rw [if_neg hcb]
            by_cases hex : instanceExists t.id (toYYYYMMDD d) E ||
                instanceExists t.id (toYYYYMMDD d) st.newExpenses
            · rw [if_pos hex]
              exact ih _ _ _ h
            · rw [if_neg hex]
              refine ih _ _ _ ?_
              obtain ⟨h1, h2, h3⟩ := h
              refine ⟨?_, ?_, ?_⟩
              · show id0 ≤ st.nextId + 1
                omega
              · show ((st.newExpenses ++
                    [materialize t st.nextId (toYYYYMMDD d)]).map
                      fun e => e.id).Nodup
                rw [List.map_append]
                have hsing : (List.map (fun e => e.id)
                    [materialize t st.nextId (toYYYYMMDD d)]) =
                    [st.nextId] := rfl
                rw [hsing, List.nodup_append]
                refine ⟨h2, List.nodup_singleton _, ?_⟩
                intro a ha hb
                rw [List.mem_singleton] at hb
                obtain ⟨x, hx, hxa⟩ := List.mem_map.mp ha
                have hlt := (h3 x hx).2
                omega
              · intro e he
                have he2 : e ∈ st.newExpenses ++
                    [materialize t st.nextId (toYYYYMMDD d)] := he
                show id0 ≤ e.id ∧ e.id < st.nextId + 1
                rcases List.mem_append.mp he2 with he3 | he3
                · have hb := h3 e he3
                  exact ⟨hb.1, by omega⟩
                · rw [List.mem_singleton.mp he3]
                  show id0 ≤ st.nextId ∧ st.nextId < st.nextId + 1
                  exact ⟨h1, Nat.lt_succ_self _⟩
      · rw [if_neg hle]
        exact h

theorem processTemplate_ids (today : Nat) (E : List Expense) (t : Expense)
    (id0 : Nat) (st : GenState) (up : List Expense) (h : IdsOk id0 st) :
    IdsOk id0 (processTemplate today E t st up).1 := by
  match hdate : t.date with
  | none =>
    rw [processTemplate_none today E t st up hdate]
    exact h
  | some d0 =>
    rw [processTemplate_some today E t st up d0 hdate]
    exact genLoop_ids t today E id0 _ st _ _ h

theorem runTemplates_ids (today : Nat) (E : List Expense) (id0 : Nat) :
    ∀ ts st up, IdsOk id0 st →
      IdsOk id0 (runTemplates today E ts st up).1 := by
  intro ts
  induction ts with
  | nil =>
    intro st up h
    exact h
  | cons t ts ih =>
    intro st up h
    rw [runTemplates_step]
    exact ih _ _ (processTemplate_ids today E t id0 st up h)

/-- C2 (amended): every instance the engine materializes has frequency
single, a back-reference recurringExpenseId equal to its template's id,
date equal to the occurrence's ISO date string, lastGeneratedDate
cleared, and a fresh id (distinct from every existing id and pairwise
distinct, given the counter exceeds the existing ids): but it RETAINS
the template's recurrence, recurrenceInterval, recurrenceEndType,
recurrenceEndDate and recurrenceCount fields, which the spread copy
leaves in place rather than clearing. -/
theorem materialized_fields (T E : List Expense) (today id0 : Nat)
    (hE : ∀ x ∈ E, x.id < id0) :
    (∀ e ∈ (generate T E today id0).newInstances,
      (∃ t ∈ T, ∃ nd, nd ≤ today ∧
        e.recurringExpenseId = some t.id ∧ e.frequency = .single ∧
        e.date = some (toYYYYMMDD nd) ∧ e.lastGeneratedDate = none ∧
        e.recurrence = t.recurrence ∧
        e.recurrenceInterval = t.recurrenceInterval ∧
        e.recurrenceEndType = t.recurrenceEndType ∧
        e.recurrenceEndDate = t.recurrenceEndDate ∧
        e.recurrenceCount = t.recurrenceCount ∧
        e.amount = t.amount) ∧
      ∀ x ∈ E, x.id ≠ e.id) ∧
    ((generate T E today id0).newInstances.map fun e => e.id).Nodup := by
  obtain ⟨⟨ext, hq, hqp⟩, hupfin, htfin⟩ :=
    runTemplates_post today E T ⟨[], id0⟩ [] (by simp)
  have hids := runTemplates_ids today E id0 T ⟨[], id0⟩ []
    ⟨Nat.le_refl _, by simp, by simp⟩
  set R := runTemplates today E T ⟨[], id0⟩ [] with hR
  constructor
  · intro e he
    have heR : e ∈ R.1.newExpenses := he
    have he' : e ∈ ext := by
      rw [hq] at heR
      simpa using heR
    obtain ⟨t, htT, idv, dv, hm, hdv, hdb⟩ := hqp e he'
    constructor
    · subst hm
      exact ⟨t, htT, dv, hdv, rfl, rfl, rfl, rfl, rfl, rfl, rfl, rfl, rfl,
        rfl⟩
    · intro x hx
      have hxlt := hE x hx
      have hge := (hids.2.2 e he).1
      omega
  · exact hids.2.1

theorem materialized_fields_witness :
    (∀ x ∈ ([] : List Expense), x.id < 5) ∧
    ((∀ e ∈ (generate [tmplA] [] (parseDate ⟨2024, 1, 2⟩) 5).newInstances,
      (∃ t ∈ [tmplA], ∃ nd, nd ≤ parseDate ⟨2024, 1, 2⟩ ∧
        e.recurringExpenseId = some t.id ∧ e.frequency = .single ∧
        e.date = some (toYYYYMMDD nd) ∧ e.lastGeneratedDate = none ∧
        e.recurrence = t.recurrence ∧
        e.recurrenceInterval = t.recurrenceInterval ∧
        e.recurrenceEndType = t.recurrenceEndType ∧
        e.recurrenceEndDate = t.recurrenceEndDate ∧
        e.recurrenceCount = t.recurrenceCount ∧
        e.amount = t.amount) ∧
      ∀ x ∈ ([] : List Expense), x.id ≠ e.id) ∧
    ((generate [tmplA] [] (parseDate ⟨2024, 1, 2⟩) 5).newInstances.map
      fun e => e.id).Nodup) :=
  ⟨by simp, materialized_fields [tmplA] [] (parseDate ⟨2024, 1, 2⟩) 5
    (by simp)⟩

/-- C2 counterexample: the claim that a materialized instance carries
none of the template's recurrence fields is false: the engine's spread
copy clears only lastGeneratedDate, so the instance generated from a
daily template still carries its recurrence field. -/
theorem materialized_keeps_recurrence :
    (generate [tmplA] [] (parseDate ⟨2024, 1, 1⟩) 0).newInstances.length
      = 1 ∧
    ¬ (∀ e ∈ (generate [tmplA] [] (parseDate ⟨2024, 1, 1⟩) 0).newInstances,
        e.recurrence = none ∧ e.recurrenceInterval = none ∧
        e.recurrenceEndType = none ∧ e.recurrenceEndDate = none ∧
        e.recurrenceCount = none) := by
  decide

/-! Count-bound machinery for the count termination rule. -/

theorem countRefs_mat_one (t : Expense) (idv : Nat) (s : Ymd) :
    countRefs t.id [materialize t idv s] = 1 := by
  simp [countRefs, materialize]

theorem countRefs_ext_zero (tid : Nat) (ext : List Expense)
    (h : ∀ e ∈ ext, e.recurringExpenseId ≠ some tid) :
    countRefs tid ext = 0 := by
  unfold countRefs
  rw [List.length_eq_zero, List.filter_eq_nil_iff]
  intro a ha
  simp [h a ha]

theorem genLoop_count_bound (t : Expense) (today : Nat) (E : List Expense)
    (N : Nat) (hend : t.recurrenceEndType = some .count)
    (hcnt : t.recurrenceCount = some N) (hN : 1 ≤ N) :
    ∀ fuel st nd lg,
      countRefs t.id E + countRefs t.id st.newExpenses ≤ N →
      countRefs t.id E +
        countRefs t.id (genLoop t today E fuel st nd lg).1.newExpenses ≤ N := by
  intro fuel
  induction fuel with
  | zero =>
    intro st nd lg h
    rw [genLoop_zero]
    exact h
  | succ f ih =>
    intro st nd lg h
    match nd with
    | none =>
      rw [genLoop_none]
      exact h
    | some d =>
      rw [genLoop_succ]
      by_cases hle : d ≤ today
      · rw [if_pos hle]
        by_cases hdb : dateBreak t d
        · rw [if_pos hdb]
          exact h
        · rw [if_neg hdb]
          by_cases hcb : countBreak t
              (countRefs t.id E + countRefs t.id st.newExpenses)
          · rw [if_pos hcb]
            exact h
          · rw [if_neg hcb]
            have htot : countRefs t.id E + countRefs t.id st.newExpenses
                < N := by
              by_contra hc
              exact hcb ((countBreak_iff t _).mpr
                ⟨hend, N, hcnt, by omega, by omega⟩)
            by_cases hex : instanceExists t.id (toYYYYMMDD d) E ||
                instanceExists t.id (toYYYYMMDD d) st.newExpenses
            · rw [if_pos hex]
              exact ih _ _ _ (by omega)
            · rw [if_neg hex]
              refine ih _ _ _ ?_
              show countRefs t.id E + countRefs t.id (st.newExpenses ++
                [materialize t st.nextId (toYYYYMMDD d)]) ≤ N
              rw [countRefs_append, countRefs_mat_one]
              omega
      · rw [if_neg hle]
        exact h

theorem processTemplate_count_other (today : Nat) (E : List Expense)
    (t t' : Expense) (hne : t'.id ≠ t.id) (st : GenState)
    (up : List Expense) :
    countRefs t.id (processTemplate today E t' st up).1.newExpenses =
      countRefs t.id st.newExpenses := by
  obtain ⟨⟨ext, hq, hqp⟩, hupd⟩ := processTemplate_post today E t' st up
  have hzero : countRefs t.id ext = 0 := by
    apply countRefs_ext_zero
    intro e he
    obtain ⟨idv, dv, hm, hdv, hdb⟩ := hqp e he
    subst hm
    intro hc
    exact hne (Option.some.inj hc)
  rw [hq, countRefs_append, hzero]
  omega

theorem runTemplates_count_bound (today : Nat) (E : List Expense)
    (t : Expense) (N : Nat) (hend : t.recurrenceEndType = some .count)
    (hcnt : t.recurrenceCount = some N) (hN : 1 ≤ N) :
    ∀ ts st up, (∀ t' ∈ ts, t' = t ∨ t'.id ≠ t.id) →
      countRefs t.id E + countRefs t.id st.newExpenses ≤ N →
      countRefs t.id E +
        countRefs t.id (runTemplates today E ts st up).1.newExpenses ≤ N := by
  intro ts
  induction ts with
  | nil =>
    intro st up hall h
    exact h
  | cons t' ts ih =>
    intro st up hall h
    rw [runTemplates_step]
    have hstep : countRefs t.id E +
        countRefs t.id (processTemplate today E t' st up).1.newExpenses
          ≤ N := by
      rcases hall t' (List.mem_cons_self t' ts) with heq | hne
      · subst heq
        match hdate : t'.date with
        | none =>
          rw [processTemplate_none today E t' st up hdate]
          exact h
        | some d0 =>
          rw [processTemplate_some today E t' st up d0 hdate]
          exact genLoop_count_bound t' today E N hend hcnt hN _ st _ _ h
      · rw [processTemplate_count_other today E t t' hne st up]
        exact h
    exact ih _ _ (fun x hx => hall x (List.mem_cons_of_mem t' hx)) hstep

/-- C3 (amended): the count bound holds for every positive count. For a
template with recurrenceEndType count and recurrenceCount N with
N at least 1, unique holder of its id in the template list, a
generation pass never pushes the number of instances referencing it
beyond N (so across any number of passes it stays at most N). The
original claim included N = 0, but the engine treats a zero
recurrenceCount as falsy and skips the count check entirely. -/
theorem count_bound_preserved (T E : List Expense) (today id0 : Nat)
    (t : Expense) (N : Nat) (_htT : t ∈ T)
    (huniq : ∀ t' ∈ T, t'.id = t.id → t' = t)
    (hend : t.recurrenceEndType = some .count)
    (hcnt : t.recurrenceCount = some N) (hN : 1 ≤ N)
    (hE : countRefs t.id E ≤ N) :
    countRefs t.id (applyExpenses (generate T E today id0) E) ≤ N := by
  have hfold := runTemplates_count_bound today E t N hend hcnt hN T
    ⟨[], id0⟩ []
    (fun t' ht' => by
      by_cases hc : t'.id = t.id
      · exact Or.inl (huniq t' ht' hc)
      · exact Or.inr hc)
    (by
      show countRefs t.id E + countRefs t.id [] ≤ N
      simpa [countRefs] using hE)
  have happ : countRefs t.id (applyExpenses (generate T E today id0) E) =
      countRefs t.id
        (runTemplates today E T ⟨[], id0⟩ []).1.newExpenses +
        countRefs t.id E := by
    show countRefs t.id
        ((runTemplates today E T ⟨[], id0⟩ []).1.newExpenses ++ E) = _
    rw [countRefs_append]
  omega

/-- A daily template with count end type and recurrenceCount 0. -/
def tCnt0 : Expense :=
  { tmplA with recurrenceEndType := some .count, recurrenceCount := some 0 }

/-- C3 counterexample: with recurrenceCount = 0 the engine's truthiness
check skips the count rule, so a pass generates an instance and the
total of instances referencing the template exceeds N = 0. -/
theorem count_zero_claim_false :
    tCnt0.recurrenceEndType = some .count ∧
    tCnt0.recurrenceCount = some 0 ∧
    ¬ (countRefs tCnt0.id (applyExpenses
        (generate [tCnt0] [] (parseDate ⟨2024, 1, 1⟩) 0) []) ≤ 0) := by
  decide

/-- A daily template with count end type and recurrenceCount 2. -/
def tCnt2 : Expense :=
  { tmplA with recurrenceEndType := some .count, recurrenceCount := some 2 }

theorem count_bound_preserved_witness :
    tCnt2 ∈ [tCnt2] ∧
    (∀ t' ∈ [tCnt2], t'.id = tCnt2.id → t' = tCnt2) ∧
    tCnt2.recurrenceEndType = some REndType.count ∧
    tCnt2.recurrenceCount = some 2 ∧
    1 ≤ 2 ∧
    countRefs tCnt2.id ([] : List Expense) ≤ 2 ∧
    countRefs tCnt2.id (applyExpenses
      (generate [tCnt2] [] (parseDate ⟨2024, 1, 9⟩) 0) []) ≤ 2 :=
  ⟨by decide, by decide, by decide, by decide, by decide, by decide,
    count_bound_preserved [tCnt2] [] (parseDate ⟨2024, 1, 9⟩) 0 tCnt2 2
      (by decide) (by decide) (by decide) (by decide) (by decide)
      (by decide)⟩

/-- C4: Date bound. For a template with recurrenceEndType date and a
set recurrenceEndDate D, unique holder of its id in the template list,
no instance a generation pass materializes for it has an ISO date
string strictly greater than D: the engine compares toYYYYMMDD of the
candidate due date against D and breaks before materializing. -/
theorem date_bound (T E : List Expense) (today id0 : Nat) (t : Expense)
    (D : Ymd) (huniq : ∀ t' ∈ T, t'.id = t.id → t' = t)
    (hend : t.recurrenceEndType = some .date)
    (hD : t.recurrenceEndDate = some D) :
    ∀ e ∈ (generate T E today id0).newInstances,
      e.recurringExpenseId = some t.id →
      ∃ s, e.date = some s ∧ ymdLt D s = false := by
  obtain ⟨⟨ext, hq, hqp⟩, hupfin, htfin⟩ :=
    runTemplates_post today E T ⟨[], id0⟩ [] (by simp)
  intro e he href
  have heR : e ∈ (runTemplates today E T ⟨[], id0⟩ []).1.newExpenses := he
  have he' : e ∈ ext := by
    rw [hq] at heR
    simpa using heR
  obtain ⟨t', ht'T, idv, dv, hm, hdv, hdb⟩ := hqp e he'
  subst hm
  have hid : t'.id = t.id := Option.some.inj href
  have ht't : t' = t := huniq t' ht'T hid
  subst ht't
  refine ⟨toYYYYMMDD dv, rfl, ?_⟩
  unfold dateBreak at hdb
  rw [hend, hD] at hdb
  simpa using hdb

/-- A weekly-style daily template ending by date 2024-01-02. -/
def tDate : Expense :=
  { tmplA with
    recurrenceEndType := some .date
    recurrenceEndDate := some ⟨2024, 1, 2⟩ }

theorem date_bound_witness :
    (∀ t' ∈ [tDate], t'.id = tDate.id → t' = tDate) ∧
    tDate.recurrenceEndType = some REndType.date ∧
    tDate.recurrenceEndDate = some ⟨2024, 1, 2⟩ ∧
    (∀ e ∈ (generate [tDate] [] (parseDate ⟨2024, 1, 5⟩) 0).newInstances,
      e.recurringExpenseId = some tDate.id →
      ∃ s, e.date = some s ∧ ymdLt ⟨2024, 1, 2⟩ s = false) :=
  ⟨by decide, by decide, by decide,
    date_bound [tDate] [] (parseDate ⟨2024, 1, 5⟩) 0 tDate ⟨2024, 1, 2⟩
      (by decide) (by decide) (by decide)⟩

/-- C5 (amended): cursor consistency is preserved rather than
unconditional. If before the pass every template's lastGeneratedDate is
unset or carried by some instance referencing it in the expense list,
then after applying the pass's delta the same holds of every merged
template against the grown expense list. The original claim (for
arbitrary expense lists, including ones with user deletions, and
equality with the most recent instance) is false: a deleted instance
leaves a dangling cursor the engine never revisits. -/
theorem cursor_consistency_preserved (T E : List Expense)
    (today id0 : Nat)
    (H : ∀ t ∈ T, ∀ s, t.lastGeneratedDate = some s →
      ∃ x ∈ E, x.recurringExpenseId = some t.id ∧ x.date = some s) :
    ∀ u ∈ applyTemplates (generate T E today id0) T, ∀ s,
      u.lastGeneratedDate = some s →
      ∃ x ∈ applyExpenses (generate T E today id0) E,
        x.recurringExpenseId = some u.id ∧ x.date = some s := by
  obtain ⟨⟨ext, hq, hqp⟩, hupfin, htfin⟩ :=
    runTemplates_post today E T ⟨[], id0⟩ [] (by simp)
  set R := runTemplates today E T ⟨[], id0⟩ [] with hR
  have hE'mem : ∀ x : Expense, (x ∈ E ∨ x ∈ R.1.newExpenses) →
      x ∈ applyExpenses (generate T E today id0) E := by
    intro x hx
    show x ∈ R.1.newExpenses ++ E
    rcases hx with hx | hx
    · exact List.mem_append_right _ hx
    · exact List.mem_append_left _ hx
  intro u hu s hs
  have hu' : u ∈ T.map
      (fun t => ((R.2.find? fun v => v.id == t.id).getD t)) := hu
  obtain ⟨t, htT, hut⟩ := List.mem_map.mp hu'
  cases hfind : R.2.find? fun v => v.id == t.id with
  | none =>
    rw [hfind] at hut
    simp only [Option.getD_none] at hut
    subst hut
    obtain ⟨x, hxE, hx1, hx2⟩ := H t htT s hs
    exact ⟨x, hE'mem x (Or.inl hxE), hx1, hx2⟩
  | some v =>
    rw [hfind] at hut
    simp only [Option.getD_some] at hut
    subst hut
    obtain ⟨t0, s0, dl, hvu, hs0, hdl, hexit, hinst⟩ :=
      hupfin v (List.mem_of_find?_eq_some hfind)
    have hlg : v.lastGeneratedDate = some s0 := by rw [hvu]
    have hss : s0 = s := by
      rw [hlg] at hs
      exact Option.some.inj hs
    subst hss
    have hid : v.id = t0.id := by rw [hvu]
    rcases hinst with hi | hi
    · obtain ⟨x, hxE, hx1, hx2⟩ := (instanceExists_iff t0.id s0 E).mp hi
      refine ⟨x, hE'mem x (Or.inl hxE), ?_, hx2⟩
      rw [hid]
      exact hx1
    · obtain ⟨x, hxq, hx1, hx2⟩ :=
        (instanceExists_iff t0.id s0 R.1.newExpenses).mp hi
      refine ⟨x, hE'mem x (Or.inr hxq), ?_, hx2⟩
      rw [hid]
      exact hx1

theorem cursor_consistency_preserved_witness :
    (∀ t ∈ [tmplA], ∀ s, t.lastGeneratedDate = some s →
      ∃ x ∈ ([] : List Expense), x.recurringExpenseId = some t.id ∧
        x.date = some s) ∧
    (∀ u ∈ applyTemplates
        (generate [tmplA] [] (parseDate ⟨2024, 1, 2⟩) 0) [tmplA], ∀ s,
      u.lastGeneratedDate = some s →
      ∃ x ∈ applyExpenses
          (generate [tmplA] [] (parseDate ⟨2024, 1, 2⟩) 0) [],
        x.recurringExpenseId = some u.id ∧ x.date = some s) :=
  ⟨by decide,
    cursor_consistency_preserved [tmplA] [] (parseDate ⟨2024, 1, 2⟩) 0
      (by decide)⟩

/-- The daily template with a cursor at 2024-01-03 whose instances the
user has deleted. -/
def tCur : Expense := { tmplA with lastGeneratedDate := some ⟨2024, 1, 3⟩ }

/-- C5 counterexample: over an expense list from which the instances
were deleted, a pass is a no-op and the template keeps a
lastGeneratedDate matched by no instance referencing it, refuting the
claim for arbitrary (deletion-containing) expense lists. -/
theorem cursor_claim_false :
    ¬ (∀ u ∈ applyTemplates
        (generate [tCur] [] (parseDate ⟨2024, 1, 3⟩) 0) [tCur],
      u.lastGeneratedDate = none ∨
      ∃ x ∈ applyExpenses (generate [tCur] [] (parseDate ⟨2024, 1, 3⟩) 0)
          [],
        x.recurringExpenseId = some u.id ∧
          x.date = u.lastGeneratedDate) := by
  decide

end Gestore
